import Mathlib

/-!
Verification of the RESP codec, keyspace commands, RDB decoder and
replication handshake of a small Redis-compatible server written in Rust.

Bytes are modelled as natural numbers (each element of a buffer is a byte
value), buffers as `List Nat`, and the Rust `HashMap`s as association
lists.  A Rust function that can panic is modelled as an `Option`-returning
function where `none` is the panic; `anyhow::Result` errors are modelled
explicitly where a claim distinguishes them.  The `usize` width of the
compilation target is 8 bytes (64-bit).
-/

/-- Byte values of the ASCII decimal digits of `n`, least significant
first; the first argument is fuel bounding the digit count (any fuel at
least `n` gives the full digit string). -/
def toDigitsRevF : Nat → Nat → List Nat
  | _, 0 => []
  | 0, _ + 1 => []
  | fuel + 1, n + 1 => ((n + 1) % 10 + 48) :: toDigitsRevF fuel ((n + 1) / 10)

/-- Byte values of the ASCII decimal digits of `n`, least significant
first (helper for `natToDecimal`). -/
def toDigitsRev (n : Nat) : List Nat := toDigitsRevF n n

/-- Decimal ASCII representation of `n`, as produced by Rust's `format!`
for an unsigned integer. -/
def natToDecimal (n : Nat) : List Nat :=
  if n = 0 then [48] else (toDigitsRev n).reverse

/-- Numeric value of one ASCII digit byte, `none` for a non-digit. -/
def digitVal (c : Nat) : Option Nat :=
  if 48 ≤ c ∧ c ≤ 57 then some (c - 48) else none

/-- Accumulating decimal scan over digit bytes; `none` on a non-digit. -/
def parseDigitsGo : List Nat → Nat → Option Nat
  | [], acc => some acc
  | c :: t, acc =>
    match digitVal c with
    | none => none
    | some d => parseDigitsGo t (acc * 10 + d)

/-- Value of a non-empty all-digit byte string, `none` otherwise. -/
def parseDigits (l : List Nat) : Option Nat :=
  if l.isEmpty then none else parseDigitsGo l 0

/-- Model of Rust `str::parse::<u64>`: optional leading `+`, then a
non-empty digit string whose value fits in 64 bits. -/
def parseU64 (l : List Nat) : Option Nat :=
  match l with
  | [] => none
  | c :: r =>
    let digits := if c = 43 then parseDigits r else parseDigits (c :: r)
    match digits with
    | none => none
    | some v => if v < 2 ^ 64 then some v else none

/-- Model of Rust `str::parse::<usize>` on the 64-bit target. -/
def parseUsize (l : List Nat) : Option Nat := parseU64 l

/-- Model of Rust `str::parse::<i32>`: optional sign, then a non-empty
digit string whose value fits in a signed 32-bit integer. -/
def parseI32 (l : List Nat) : Option Int :=
  match l with
  | [] => none
  | c :: r =>
    if c = 45 then
      match parseDigits r with
      | none => none
      | some v => if v ≤ 2 ^ 31 then some (-(v : Int)) else none
    else if c = 43 then
      match parseDigits r with
      | none => none
      | some v => if v < 2 ^ 31 then some ((v : Int)) else none
    else
      match parseDigits (c :: r) with
      | none => none
      | some v => if v < 2 ^ 31 then some ((v : Int)) else none

/-- Whether a byte is a UTF-8 continuation byte (`0x80..0xBF`). -/
def utf8Cont (b : Nat) : Bool := 128 ≤ b ∧ b ≤ 191

/-- Model of `str::from_utf8(..).is_ok()`: RFC 3629 well-formedness of a
byte sequence. -/
def validUtf8 : List Nat → Bool
  | [] => true
  | b :: rest =>
    if b ≤ 127 then validUtf8 rest
    else if 194 ≤ b ∧ b ≤ 223 then
      match rest with
      | c1 :: r => utf8Cont c1 && validUtf8 r
      | [] => false
    else if 224 ≤ b ∧ b ≤ 239 then
      match rest with
      | c1 :: c2 :: r =>
        (if b = 224 then 160 ≤ c1 ∧ c1 ≤ 191
         else if b = 237 then 128 ≤ c1 ∧ c1 ≤ 159
         else utf8Cont c1 = true) && utf8Cont c2 && validUtf8 r
      | _ => false
    else if 240 ≤ b ∧ b ≤ 244 then
      match rest with
      | c1 :: c2 :: c3 :: r =>
        (if b = 240 then 144 ≤ c1 ∧ c1 ≤ 191
         else if b = 244 then 128 ≤ c1 ∧ c1 ≤ 143
         else utf8Cont c1 = true) && utf8Cont c2 && utf8Cont c3 && validUtf8 r
      | _ => false
    else false

/-- ASCII fragment of Rust `str::to_uppercase`; it agrees with the source
on the ASCII arguments all theorems below use. -/
def asciiUpper (l : List Nat) : List Nat :=
  l.map (fun c => if 97 ≤ c ∧ c ≤ 122 then c - 32 else c)

/-- Index of the first `\r\n` pair, exactly as the source's
`buf[pos..].windows(2).position(|w| w == b"\r\n")`. -/
def findCRLF : List Nat → Option Nat
  | a :: b :: t => if a = 13 ∧ b = 10 then some 0 else (findCRLF (b :: t)).map (· + 1)
  | _ => none

/-- Whether a byte list contains no adjacent `\r\n` pair. -/
def noAdjCRLF : List Nat → Bool
  | [] => true
  | [_] => true
  | a :: b :: t => !(a = 13 ∧ b = 10) && noAdjCRLF (b :: t)

/-- Start (inclusive) and end (exclusive) indices of a token in a buffer,
the source's `Tok(usize, usize)`. -/
structure Tok where
  lo : Nat
  hi : Nat
deriving DecidableEq

/-- Bytes a token denotes inside its buffer, the source's
`Tok::as_slice` / `Tok::as_bytes` (`&buf[lo..hi]`). -/
def sliceTok (buf : List Nat) (t : Tok) : List Nat :=
  (buf.take t.hi).drop t.lo

/-- Model of `get_next_word`: the range of the next CRLF-terminated word
and the position just past its CRLF, `none` when no CRLF is in view. -/
def getNextWord (buf : List Nat) (pos : Nat) : Option (Tok × Nat) :=
  if buf.length ≤ pos then none
  else (findCRLF (buf.drop pos)).map (fun cr => (Tok.mk pos (pos + cr), pos + cr + 2))

/-- The source's `RedisValue`: the materialized RESP value tree. -/
inductive RedisValue : Type where
  | SimpleString (s : List Nat)
  | BulkString (b : List Nat)
  | Array (arr : List RedisValue)
  | NullBulkString
  | SimpleError (e : List Nat)

/-- The source's `RESPRaw`: the token tree, leaves carrying index ranges
into the owning buffer; a null bulk string carries the next position. -/
inductive RESPRaw : Type where
  | SimpleString (t : Tok)
  | BulkString (t : Tok)
  | Array (arr : List RESPRaw)
  | NullBulkString (p : Nat)

mutual

/-- Decidable equality for `RedisValue` (the derive handler does not cover
nested inductives, so it is written out). -/
def rvDecEq : (a b : RedisValue) → Decidable (a = b)
  | RedisValue.SimpleString x, RedisValue.SimpleString y =>
    match decEq x y with
    | isTrue h => isTrue (by rw [h])
    | isFalse h => isFalse (fun hh => h (by injection hh))
  | RedisValue.SimpleString _, RedisValue.BulkString _ => isFalse (fun h => RedisValue.noConfusion h)
  | RedisValue.SimpleString _, RedisValue.Array _ => isFalse (fun h => RedisValue.noConfusion h)
  | RedisValue.SimpleString _, RedisValue.NullBulkString => isFalse (fun h => RedisValue.noConfusion h)
  | RedisValue.SimpleString _, RedisValue.SimpleError _ => isFalse (fun h => RedisValue.noConfusion h)
  | RedisValue.BulkString _, RedisValue.SimpleString _ => isFalse (fun h => RedisValue.noConfusion h)
  | RedisValue.BulkString x, RedisValue.BulkString y =>
    match decEq x y with
    | isTrue h => isTrue (by rw [h])
    | isFalse h => isFalse (fun hh => h (by injection hh))
  | RedisValue.BulkString _, RedisValue.Array _ => isFalse (fun h => RedisValue.noConfusion h)
  | RedisValue.BulkString _, RedisValue.NullBulkString => isFalse (fun h => RedisValue.noConfusion h)
  | RedisValue.BulkString _, RedisValue.SimpleError _ => isFalse (fun h => RedisValue.noConfusion h)
  | RedisValue.Array _, RedisValue.SimpleString _ => isFalse (fun h => RedisValue.noConfusion h)
  | RedisValue.Array _, RedisValue.BulkString _ => isFalse (fun h => RedisValue.noConfusion h)
  | RedisValue.Array xs, RedisValue.Array ys =>
    match rvDecEqList xs ys with
    | isTrue h => isTrue (by rw [h])
    | isFalse h => isFalse (fun hh => h (by injection hh))
  | RedisValue.Array _, RedisValue.NullBulkString => isFalse (fun h => RedisValue.noConfusion h)
  | RedisValue.Array _, RedisValue.SimpleError _ => isFalse (fun h => RedisValue.noConfusion h)
  | RedisValue.NullBulkString, RedisValue.SimpleString _ => isFalse (fun h => RedisValue.noConfusion h)
  | RedisValue.NullBulkString, RedisValue.BulkString _ => isFalse (fun h => RedisValue.noConfusion h)
  | RedisValue.NullBulkString, RedisValue.Array _ => isFalse (fun h => RedisValue.noConfusion h)
  | RedisValue.NullBulkString, RedisValue.NullBulkString => isTrue rfl
  | RedisValue.NullBulkString, RedisValue.SimpleError _ => isFalse (fun h => RedisValue.noConfusion h)
  | RedisValue.SimpleError _, RedisValue.SimpleString _ => isFalse (fun h => RedisValue.noConfusion h)
  | RedisValue.SimpleError _, RedisValue.BulkString _ => isFalse (fun h => RedisValue.noConfusion h)
  | RedisValue.SimpleError _, RedisValue.Array _ => isFalse (fun h => RedisValue.noConfusion h)
  | RedisValue.SimpleError _, RedisValue.NullBulkString => isFalse (fun h => RedisValue.noConfusion h)
  | RedisValue.SimpleError x, RedisValue.SimpleError y =>
    match decEq x y with
    | isTrue h => isTrue (by rw [h])
    | isFalse h => isFalse (fun hh => h (by injection hh))

/-- Decidable equality for lists of `RedisValue`. -/
def rvDecEqList : (xs ys : List RedisValue) → Decidable (xs = ys)
  | [], [] => isTrue rfl
  | [], _ :: _ => isFalse (fun h => List.noConfusion h)
  | _ :: _, [] => isFalse (fun h => List.noConfusion h)
  | x :: xs, y :: ys =>
    match rvDecEq x y with
    | isTrue h1 =>
      match rvDecEqList xs ys with
      | isTrue h2 => isTrue (by rw [h1, h2])
      | isFalse h2 => isFalse (fun h => h2 (by injection h))
    | isFalse h1 => isFalse (fun h => h1 (by injection h))

end

instance : DecidableEq RedisValue := rvDecEq

mutual

/-- Model of `RedisValue::serialize`.  Returns `none` when the source
fails or panics: `str::from_utf8` rejects an invalid payload, and a
failing child of an array is `.unwrap()`ed. -/
def serialize : RedisValue → Option (List Nat)
  | RedisValue.SimpleString s =>
    if validUtf8 s then some (43 :: (s ++ [13, 10])) else none
  | RedisValue.BulkString b =>
    if validUtf8 b then
      some (36 :: (natToDecimal b.length ++ [13, 10] ++ b ++ [13, 10]))
    else none
  | RedisValue.NullBulkString => some [36, 45, 49, 13, 10]
  | RedisValue.SimpleError e =>
    if validUtf8 e then some (45 :: (e ++ [13, 10])) else none
  | RedisValue.Array vs =>
    match serializeList vs with
    | none => none
    | some body => some (42 :: (natToDecimal vs.length ++ [13, 10] ++ body))

/-- Serialization of the children of an array, joined (`join("")`). -/
def serializeList : List RedisValue → Option (List Nat)
  | [] => some []
  | v :: vs =>
    match serialize v, serializeList vs with
    | some s, some ss => some (s ++ ss)
    | _, _ => none

end

mutual

/-- Model of `RedisValue::from_token`: materializes a token tree against
the backing buffer. -/
def fromToken : RESPRaw → List Nat → RedisValue
  | RESPRaw.SimpleString t, buf => RedisValue.SimpleString (sliceTok buf t)
  | RESPRaw.BulkString t, buf => RedisValue.BulkString (sliceTok buf t)
  | RESPRaw.NullBulkString _, _ => RedisValue.NullBulkString
  | RESPRaw.Array tks, buf => RedisValue.Array (fromTokenList tks buf)

/-- Materialization of a list of child tokens. -/
def fromTokenList : List RESPRaw → List Nat → List RedisValue
  | [], _ => []
  | t :: ts, buf => fromToken t buf :: fromTokenList ts buf

end

/-- Model of `parse_basic_string`. -/
def parse_basic_string (buf : List Nat) (pos : Nat) : Except Unit (Option (RESPRaw × Nat)) :=
  Except.ok ((getNextWord buf pos).map (fun p => (RESPRaw.SimpleString p.1, p.2)))

/-- Model of `parse_bulk_string`.  `Except.error` is a fatal parse error
(`bail!` or a length word that does not parse as `i32`); `ok none` is an
incomplete frame.  Note that the byte range of a non-null bulk string is
not checked against the buffer length. -/
def parse_bulk_string (buf : List Nat) (pos : Nat) : Except Unit (Option (RESPRaw × Nat)) :=
  match getNextWord buf pos with
  | none => Except.ok none
  | some (tok, next) =>
    match parseI32 (sliceTok buf tok) with
    | none => Except.error ()
    | some n =>
      if n = -1 then Except.ok (some (RESPRaw.NullBulkString next, next))
      else if 0 ≤ n then
        Except.ok (some (RESPRaw.BulkString (Tok.mk next (next + n.toNat)), next + n.toNat + 2))
      else Except.error ()

/-- Scan of `count` consecutive sub-frames with tokenizer `f`, the loop
body of `parse_array`. -/
def parseElemsWith (f : List Nat → Nat → Except Unit (Option (RESPRaw × Nat))) :
    Nat → List Nat → Nat → Except Unit (Option (List RESPRaw × Nat))
  | 0, _, pos => Except.ok (some ([], pos))
  | c + 1, buf, pos =>
    match f buf pos with
    | Except.error e => Except.error e
    | Except.ok none => Except.ok none
    | Except.ok (some (tk, next)) =>
      match parseElemsWith f c buf next with
      | Except.error e => Except.error e
      | Except.ok none => Except.ok none
      | Except.ok (some (tks, fin)) => Except.ok (some (tk :: tks, fin))

/-- Fuelled model of `tokenize` (the fuel only bounds the recursion depth
of nested frames; `tokenize` below supplies enough for any buffer). -/
def tokenizeF : Nat → List Nat → Nat → Except Unit (Option (RESPRaw × Nat))
  | 0, _, _ => Except.error ()
  | fuel + 1, buf, pos =>
    match buf.get? pos with
    | none => Except.ok none
    | some b =>
      if b = 43 then parse_basic_string buf (pos + 1)
      else if b = 36 then parse_bulk_string buf (pos + 1)
      else if b = 42 then
        match getNextWord buf (pos + 1) with
        | none => Except.ok none
        | some (tok, next) =>
          match parseI32 (sliceTok buf tok) with
          | none => Except.error ()
          | some n =>
            if 0 ≤ n then
              match parseElemsWith (fun bb pp => tokenizeF fuel bb pp) n.toNat buf next with
              | Except.error e => Except.error e
              | Except.ok none => Except.ok none
              | Except.ok (some (tks, fin)) => Except.ok (some (RESPRaw.Array tks, fin))
            else Except.error ()
      else Except.error ()

/-- Model of `tokenize(buf, pos)`: `error` is a fatal parse error, `ok
none` an incomplete frame, `ok (some (tok, next))` a complete token with
the start of the next one. -/
def tokenize (buf : List Nat) (pos : Nat) : Except Unit (Option (RESPRaw × Nat)) :=
  tokenizeF (buf.length + 1) buf pos

/-- Model of `RedisConnectionHandler::_parse` applied to a tokenize
result: `none` models the panic of `buffer.split_to(tok.1)` when the
token's end lies beyond the buffer; otherwise the materialized value. -/
def handlerParse (buf : List Nat) (tk : Option (RESPRaw × Nat)) : Option (Option RedisValue) :=
  match tk with
  | none => some none
  | some (t, fin) =>
    if buf.length < fin then none
    else some (some (fromToken t (buf.take fin)))

/-- Association-list lookup, the model of `HashMap::get`. -/
def lookupA {β : Type} : List (RedisValue × β) → RedisValue → Option β
  | [], _ => none
  | (k', v) :: t, k => if k' = k then some v else lookupA t k

/-- Association-list insert-or-replace, the model of `HashMap::insert`. -/
def insertA {β : Type} : List (RedisValue × β) → RedisValue → β → List (RedisValue × β)
  | [], k, v => [(k, v)]
  | (k', v') :: t, k, v => if k' = k then (k, v) :: t else (k', v') :: insertA t k v

/-- Association-list removal, the model of `HashMap::remove`. -/
def removeA {β : Type} : List (RedisValue × β) → RedisValue → List (RedisValue × β)
  | [], _ => []
  | (k', v') :: t, k => if k' = k then t else (k', v') :: removeA t k

/-- Main keyspace map, `HashMap<RedisValue, RedisValue>`. -/
abbrev MainStore : Type := List (RedisValue × RedisValue)

/-- Expiry map, `HashMap<RedisValue, u64>` of absolute deadlines in ms. -/
abbrev ExpireStore : Type := List (RedisValue × Nat)

/-- Reply bytes `OK`. -/
def okBytes : List Nat := [79, 75]

/-- Model of the `get` command handler: given the argument list, both
stores and the clock sample `now` (ms since epoch), it returns the stores
after the call and the reply; `none` is the `get_argument` panic on a
missing key argument. -/
def getCmd (args : List RedisValue) (main : MainStore) (expire : ExpireStore) (now : Nat) :
    Option (MainStore × ExpireStore × RedisValue) :=
  match args.get? 0 with
  | none => none
  | some k =>
    match lookupA main k with
    | some v =>
      let timestamp := (lookupA expire k).getD (2 ^ 64 - 1)
      if timestamp < now then
        some (removeA main k, removeA expire k, RedisValue.NullBulkString)
      else some (main, expire, v)
    | none => some (main, expire, RedisValue.NullBulkString)

/-- Model of the `set` command handler.  `none` models the panics: a
missing argument, a non-bulk-string or non-UTF-8 option, an option other
than PX, or an unparsable millisecond count.  The stored deadline is the
wrapping 64-bit sum `now + ms`. -/
def setCmd (args : List RedisValue) (main : MainStore) (expire : ExpireStore) (now : Nat) :
    Option (MainStore × ExpireStore × RedisValue) :=
  match args.get? 0, args.get? 1 with
  | some key, some value =>
    match args.get? 2 with
    | none => some (insertA main key value, expire, RedisValue.SimpleString okBytes)
    | some a =>
      match a with
      | RedisValue.BulkString b =>
        if validUtf8 b then
          if asciiUpper b = [80, 88] then
            match args.get? 3 with
            | none => none
            | some a3 =>
              match a3 with
              | RedisValue.BulkString mraw =>
                if validUtf8 mraw then
                  match parseU64 mraw with
                  | some ms =>
                    some (insertA main key value,
                          insertA expire key ((now + ms) % 2 ^ 64),
                          RedisValue.SimpleString okBytes)
                  | none => none
                else none
              | _ => none
          else none
        else none
      | _ => none
  | _, _ => none

/-- Model of the `keys` command handler: iterate the main store's keys
skipping any whose expiry deadline is strictly below `now`; the pattern
argument is unpacked (panicking when absent, non-bulk or non-UTF-8) but
otherwise ignored. -/
def keysCmd (args : List RedisValue) (main : MainStore) (expire : ExpireStore) (now : Nat) :
    Option RedisValue :=
  match args.get? 0 with
  | none => none
  | some a =>
    match a with
    | RedisValue.BulkString p =>
      if validUtf8 p then
        some (RedisValue.Array ((main.map Prod.fst).filter (fun k =>
          match lookupA expire k with
          | some t => !decide (t < now)
          | none => true)))
      else none
    | _ => none

/-- Model of `RedisValue::get_cmd_and_args`: `none` covers the panics
(non-array request, `first().unwrap()` on an empty array, and
`unpack_bulk_str().unwrap()` on a non-bulk head). -/
def getCmdAndArgs (v : RedisValue) : Option (List Nat × List RedisValue) :=
  match v with
  | RedisValue.Array arr =>
    match arr with
    | [] => none
    | h :: t =>
      match h with
      | RedisValue.BulkString b => some (b, t)
      | _ => none
  | _ => none

/-- Request-shape validation of `handle_connection`: the request must be
an Array and every element a BulkString. -/
def requestShapeOk (v : RedisValue) : Bool :=
  match v with
  | RedisValue.Array arr =>
    arr.all (fun item => match item with | RedisValue.BulkString _ => true | _ => false)
  | _ => false

/-- Payload the `psync` handler puts inside its SimpleString reply:
`format!("+FULLRESYNC {} 0\r\n", replid)`. -/
def fullresyncPayload (replid : List Nat) : List Nat :=
  [43, 70, 85, 76, 76, 82, 69, 83, 89, 78, 67, 32] ++ replid ++ [32, 48, 13, 10]

/-- Bytes the master writes to the socket for a PSYNC request: the
serialized SimpleString reply followed by the raw `$<len>\r\n` header and
the RDB file bytes (no trailing CRLF).  `none` is a serialization
failure. -/
def psyncWire (replid rdb : List Nat) : Option (List Nat) :=
  (serialize (RedisValue.SimpleString (fullresyncPayload replid))).map
    (fun pre => pre ++ (36 :: (natToDecimal rdb.length ++ [13, 10] ++ rdb)))

/-- Width in bytes of `usize` on the compilation target (64-bit). -/
def usizeBytes : Nat := 8

/-- Little-endian value of a list of bytes. -/
def leNat (l : List Nat) : Nat := l.foldr (fun b acc => b + 256 * acc) 0

/-- The `n` bytes of `buf` starting at index `a` (`&buf[a..a+n]` once the
range has been checked to be inside the buffer). -/
def takeRange (buf : List Nat) (a n : Nat) : List Nat := (buf.drop a).take n

/-- Model of `parse_length_encoding`.  `none` covers the panics: reading
past the buffer end, the two `unimplemented!` variants, and — on the
64-bit target — the `10` variant, whose 4-byte slice is converted with
`try_into` into the `usizeBytes`-byte array `usize::from_le_bytes`
expects, so the `.expect(..)` fails for every input. -/
def parse_length_encoding (buf : List Nat) (pos : Nat) : Option (Nat × Nat) :=
  match buf.get? pos with
  | none => none
  | some b =>
    if b &&& 192 = 0 then some (b &&& 63, pos + 1)
    else if b &&& 192 = 64 then none
    else if b &&& 192 = 128 then
      if pos + 5 ≤ buf.length then
        if 4 = usizeBytes then some (leNat (takeRange buf (pos + 1) 4), pos + 5) else none
      else none
    else none

/-- Model of `parse_rdb_string`: a length-encoded prefix followed by that
many literal bytes.  `none` covers both the panics inside the length
decoding and the `Err` returned when the declared length overruns the
buffer (either way no store is produced). -/
def parse_rdb_string (buf : List Nat) (pos : Nat) : Option (RedisValue × Nat) :=
  match parse_length_encoding buf pos with
  | none => none
  | some (len, next) =>
    if buf.length < next + len then none
    else some (RedisValue.BulkString (takeRange buf next len), next + len)

/-- Model of the scan loop of `RedisServer::from_rdbfile`.  The result's
boolean is `parsing_complete`: `true` only when the `0xFF` end marker was
seen; a non-string value-type byte or running past the buffer leaves it
`false`.  `none` covers the panics and propagated errors inside the loop
body.  The fuel only bounds the iteration count; callers pass enough for
any buffer (the cursor advances every iteration). -/
def rdbLoop : Nat → List Nat → Nat → Nat → MainStore → ExpireStore →
    Option (Bool × MainStore × ExpireStore)
  | 0, _, _, _, _, _ => none
  | fuel + 1, buf, now, pos, m, e =>
    match buf.get? pos with
    | none => some (false, m, e)
    | some b =>
      if b = 254 then some (false, m, e)
      else if b = 252 then
        if pos + 9 ≤ buf.length then
          let expms := leNat (takeRange buf (pos + 1) 8)
          match buf.get? (pos + 9) with
          | none => none
          | some tb =>
            if tb ≠ 0 then some (false, m, e)
            else
              match parse_rdb_string buf (pos + 10) with
              | none => none
              | some (key, n1) =>
                match parse_rdb_string buf n1 with
                | none => none
                | some (val, n2) =>
                  if expms < now then rdbLoop fuel buf now n2 m e
                  else rdbLoop fuel buf now n2 (insertA m key val) (insertA e key expms)
        else none
      else if b = 255 then some (true, m, e)
      else
        if b ≠ 0 then some (false, m, e)
        else
          match parse_rdb_string buf (pos + 1) with
          | none => none
          | some (key, n1) =>
            match parse_rdb_string buf n1 with
            | none => none
            | some (val, n2) => rdbLoop fuel buf now n2 (insertA m key val) e

/-- Model of `RedisServer::from_rdbfile` up to the end of its scan loop:
locate the first `0xFB` marker (panic when absent), decode the two store
sizes, then run the entry loop starting with empty stores. -/
def rdbScan (buf : List Nat) (now : Nat) : Option (Bool × MainStore × ExpireStore) :=
  match buf.findIdx? (fun b => b = 251) with
  | none => none
  | some fb =>
    match parse_length_encoding buf (fb + 1) with
    | none => none
    | some (_, p1) =>
      match parse_length_encoding buf p1 with
      | none => none
      | some (_, p2) => rdbLoop (buf.length + 1) buf now p2 [] []

/-- Stores `from_rdbfile` hands back for a snapshot buffer: the decoded
stores when the scan saw the `0xFF` end marker, two empty stores when the
loop exited without it. -/
def fromRdbfile (buf : List Nat) (now : Nat) : Option (MainStore × ExpireStore) :=
  (rdbScan buf now).map (fun r => if r.1 then (r.2.1, r.2.2) else ([], []))

/-- Model of `RedisConnectionHandler::read_rdb_file` applied to the bytes
sitting in the connection buffer after the read: outer `none` is a panic
(no CRLF after the length word, or the `file_size - 1` subtraction when
the declared size is 0), inner `none` a framing `Err` (first byte not
`$`, unparsable size, or a byte count different from the declared size);
otherwise the returned payload — the first `file_size - 1` bytes. -/
def readRdbFile (buf : List Nat) : Option (Option (List Nat)) :=
  match buf.get? 0 with
  | none => none
  | some b =>
    if b = 36 then
      match getNextWord buf 1 with
      | none => none
      | some (tok, off) =>
        match parseUsize (sliceTok buf tok) with
        | none => some none
        | some n =>
          let rest := buf.drop off
          if rest.length = n then
            if n = 0 then none else some (some (rest.take (n - 1)))
          else some none
    else some none

mutual

/-- Values representable by the request/reply grammar: built only from
SimpleString, BulkString, NullBulkString and Array, where a simple
string's payload contains no CRLF pair (the grammar's simple strings are
single CRLF-terminated lines) and bulk-string and array lengths fit the
signed 32-bit decimal length words of the grammar. -/
def representable : RedisValue → Bool
  | RedisValue.SimpleString s => noAdjCRLF s
  | RedisValue.BulkString b => decide (b.length < 2 ^ 31)
  | RedisValue.NullBulkString => true
  | RedisValue.SimpleError _ => false
  | RedisValue.Array vs => decide (vs.length < 2 ^ 31) && representableList vs

/-- Representability of every element of a list of values. -/
def representableList : List RedisValue → Bool
  | [] => true
  | v :: vs => representable v && representableList vs

end

/-- First CRLF in `s ++ \r\n ++ t` sits exactly at the end of `s` when `s`
itself contains no CRLF pair. -/
theorem findCRLF_at (s t : List Nat) (h : noAdjCRLF s = true) :
    findCRLF (s ++ 13 :: 10 :: t) = some s.length := by
  induction s with
  | nil => simp [findCRLF]
  | cons a s ih =>
    cases s with
    | nil => simp [findCRLF]
    | cons b s' =>
      have h1 : ¬(a = 13 ∧ b = 10) := by
        intro hab
        rw [hab.1, hab.2] at h
        simp [noAdjCRLF] at h
      have h2 : noAdjCRLF (b :: s') = true := by
        cases hx : noAdjCRLF (b :: s') with
        | true => rfl
        | false =>
          rw [show noAdjCRLF (a :: b :: s') = (!(a = 13 ∧ b = 10) && noAdjCRLF (b :: s')) from rfl,
            hx] at h
          simp at h
      have ihh := ih h2
      simp only [List.cons_append] at ihh ⊢
      rw [show findCRLF (a :: b :: (s' ++ 13 :: 10 :: t)) =
          (if a = 13 ∧ b = 10 then some 0
           else (findCRLF (b :: (s' ++ 13 :: 10 :: t))).map (· + 1)) from rfl]
      rw [if_neg h1, ihh]
      simp [List.length_cons]

/-- Word scan at a split point: starting right after `pre`, the next word
is `w` when `w` is CRLF-free and immediately CRLF-terminated. -/
theorem getNextWord_at (pre w rest : List Nat) (h : noAdjCRLF w = true) :
    getNextWord (pre ++ w ++ 13 :: 10 :: rest) pre.length =
      some (Tok.mk pre.length (pre.length + w.length), pre.length + w.length + 2) := by
  unfold getNextWord
  rw [if_neg (by simp)]
  rw [List.append_assoc, List.drop_left, findCRLF_at w rest h]
  rfl

/-- Slicing the middle segment of a three-part concatenation. -/
theorem sliceTok_mid (a w r : List Nat) :
    sliceTok (a ++ w ++ r) (Tok.mk a.length (a.length + w.length)) = w := by
  unfold sliceTok
  rw [List.append_assoc]
  rw [List.take_append w.length]
  rw [List.take_left]
  rw [List.drop_left]

/-- Element lookup at the junction of an append. -/
theorem get?_at_append (pre : List Nat) (b : Nat) (t : List Nat) :
    (pre ++ b :: t).get? pre.length = some b := by
  rw [List.get?_append_right (le_refl _)]
  simp

/-- A successful digit scan certifies every byte scanned is a digit. -/
theorem parseDigitsGo_digits (l : List Nat) :
    ∀ acc v, parseDigitsGo l acc = some v → ∀ c ∈ l, 48 ≤ c ∧ c ≤ 57 := by
  induction l with
  | nil => simp
  | cons c t ih =>
    intro acc v h d hd
    by_cases hc : 48 ≤ c ∧ c ≤ 57
    · rw [List.mem_cons] at hd
      rcases hd with hd | hd
      · rw [hd]
        exact hc
      · exact ih (acc * 10 + (c - 48)) v (by simpa [parseDigitsGo, digitVal, hc] using h) d hd
    · simp [parseDigitsGo, digitVal, hc] at h

/-- A successful `parseDigits` certifies every byte is a digit. -/
theorem parseDigits_digits (l : List Nat) (v : Nat) (h : parseDigits l = some v) :
    ∀ c ∈ l, 48 ≤ c ∧ c ≤ 57 := by
  unfold parseDigits at h
  by_cases he : l.isEmpty
  · simp [he] at h
  · exact parseDigitsGo_digits l 0 v (by simpa [he] using h)

/-- Prepending a non-CR byte preserves CRLF-freedom. -/
theorem noAdjCRLF_cons (h : Nat) (t : List Nat) (hh : h ≠ 13) (ht : noAdjCRLF t = true) :
    noAdjCRLF (h :: t) = true := by
  cases t with
  | nil => rfl
  | cons b t' =>
    rw [show noAdjCRLF (h :: b :: t') = (!(h = 13 ∧ b = 10) && noAdjCRLF (b :: t')) from rfl, ht]
    simp [hh]

/-- An all-digit byte string contains no CRLF pair. -/
theorem digits_noAdjCRLF (l : List Nat) (h : ∀ c ∈ l, 48 ≤ c ∧ c ≤ 57) :
    noAdjCRLF l = true := by
  induction l with
  | nil => rfl
  | cons c t ih =>
    have hc := h c (by simp)
    exact noAdjCRLF_cons c t (by omega) (ih (fun d hd => h d (List.mem_cons_of_mem c hd)))

/-- A byte string accepted by the `u64` parser contains no CRLF pair. -/
theorem parseU64_noAdjCRLF (l : List Nat) (n : Nat) (h : parseU64 l = some n) :
    noAdjCRLF l = true := by
  cases l with
  | nil => simp [parseU64] at h
  | cons c r =>
    by_cases hc : c = 43
    · subst hc
      cases hd : parseDigits r with
      | none => simp [parseU64, hd] at h
      | some v =>
        exact noAdjCRLF_cons 43 r (by omega) (digits_noAdjCRLF r (parseDigits_digits r v hd))
    · cases hd : parseDigits (c :: r) with
      | none => simp [parseU64, hc, hd] at h
      | some v => exact digits_noAdjCRLF (c :: r) (parseDigits_digits (c :: r) v hd)

/-- C5: corrected behaviour of `read_rdb_file`.  For a buffer
`$<word>\r\n<payload>` whose length word parses to `n ≥ 1`: when the
payload is exactly `n` bytes the call succeeds but returns only the first
`n - 1` payload bytes; when the payload length differs from `n` —
including any surplus, so "at least `n` bytes" does not suffice — it
fails with a framing error; a first byte other than `$` also fails. -/
theorem c5_read_rdb_amended (w payload : List Nat) (n : Nat)
    (hw : parseUsize (w : List Nat) = some n) (hn : 1 ≤ n) :
    (payload.length = n →
      readRdbFile (36 :: (w ++ 13 :: 10 :: payload)) = some (some (payload.take (n - 1)))) ∧
    (payload.length ≠ n →
      readRdbFile (36 :: (w ++ 13 :: 10 :: payload)) = some none) ∧
    (∀ b rest, b ≠ 36 → readRdbFile (b :: rest) = some none) := by
  have hadj : noAdjCRLF w = true := parseU64_noAdjCRLF w n hw
  have hword : getNextWord (36 :: (w ++ 13 :: 10 :: payload)) 1 =
      some (Tok.mk 1 (1 + w.length), 1 + w.length + 2) := by
    have h0 := getNextWord_at [36] w payload hadj
    simpa using h0
  have hslice : sliceTok (36 :: (w ++ 13 :: 10 :: payload)) (Tok.mk 1 (1 + w.length)) = w := by
    have h1 := sliceTok_mid [36] w (13 :: 10 :: payload)
    simpa using h1
  have hdrop : (36 :: (w ++ 13 :: 10 :: payload)).drop (1 + w.length + 2) = payload := by
    have h2 : (36 :: (w ++ 13 :: 10 :: payload)) = (36 :: (w ++ [13, 10])) ++ payload := by simp
    rw [h2, show 1 + w.length + 2 = (36 :: (w ++ [13, 10])).length by simp; omega]
    exact List.drop_left _ _
  refine ⟨?_, ?_, ?_⟩
  · intro hlen
    simp [readRdbFile, hword, hslice, hw, hdrop, hlen, show ¬n = 0 by omega]
  · intro hlen
    simp [readRdbFile, hword, hslice, hw, hdrop, hlen]
  · intro b rest hb
    simp [readRdbFile, hb]

/-- C5: counterexample to the claim as stated.  With the well-formed
input `$3\r\nabc` (exactly the declared 3 payload bytes) the call returns
only `ab`, not the full 3-byte payload; and with one surplus byte
(`$3\r\nabcd`, "at least n bytes") it fails instead of succeeding. -/
theorem c5_read_rdb_counterexample :
    readRdbFile [36, 51, 13, 10, 97, 98, 99] = some (some [97, 98]) ∧
    ([97, 98] : List Nat) ≠ [97, 98, 99] ∧
    readRdbFile [36, 51, 13, 10, 97, 98, 99, 100] = some none :=
  ⟨rfl, by decide, rfl⟩

/-- C5: witness instantiating `c5_read_rdb_amended` at `$3\r\nabc`. -/
theorem c5_read_rdb_amended_witness :
    parseUsize [51] = some 3 ∧ 1 ≤ 3 ∧
    readRdbFile (36 :: ([51] ++ 13 :: 10 :: [97, 98, 99])) = some (some ([97, 98, 99].take (3 - 1))) :=
  ⟨rfl, by decide, (c5_read_rdb_amended [51] [97, 98, 99] 3 rfl (by decide)).1 rfl⟩

/-- C2: the code violates the partial-frame property.  The buffer
`$5\r\nhe` is a strict prefix of the serialization `$5\r\nhello\r\n` of
`BulkString "hello"` (first conjunct), yet `tokenize` returns a complete
token whose byte range `[4, 9)` and end position `11` lie beyond the
6-byte buffer instead of signalling "incomplete", and the caller `_parse`
panics in `buffer.split_to(11)` when it consumes that token (third
conjunct, `none` = panic). -/
theorem c2_truncated_bulk_panics :
    serialize (RedisValue.BulkString [104, 101, 108, 108, 111]) =
      some ([36, 53, 13, 10, 104, 101] ++ [108, 108, 111, 13, 10]) ∧
    tokenize [36, 53, 13, 10, 104, 101] 0 =
      Except.ok (some (RESPRaw.BulkString (Tok.mk 4 9), 11)) ∧
    handlerParse [36, 53, 13, 10, 104, 101]
      (some (RESPRaw.BulkString (Tok.mk 4 9), 11)) = none :=
  ⟨rfl, rfl, rfl⟩

/-- C4: on the 64-bit target, a length-encoding byte with top bits `10`
always panics instead of decoding a little-endian u32: the 4-byte slice
`buf[pos+1..pos+5]` is converted with `try_into` into the 8-byte array
`usize::from_le_bytes` expects, and the `.expect(..)` fails. -/
theorem c4_four_byte_length_panics (buf : List Nat) (pos : Nat) (b : Nat)
    (hb : buf.get? pos = some b) (hmask : b &&& 192 = 128) :
    parse_length_encoding buf pos = none := by
  simp only [parse_length_encoding, hb, hmask]
  norm_num [usizeBytes]

/-- C4: witness for the failing input `[0x80, 1, 0, 0, 0]` at position 0,
where the claim expects the decoded length 1 with 5 bytes consumed. -/
theorem c4_four_byte_length_panics_witness :
    ([128, 1, 0, 0, 0] : List Nat).get? 0 = some 128 ∧ ((128 : Nat) &&& 192) = 128 ∧
    parse_length_encoding [128, 1, 0, 0, 0] 0 = none :=
  ⟨rfl, by decide, c4_four_byte_length_panics [128, 1, 0, 0, 0] 0 128 rfl (by decide)⟩

/-- C10: the empty-array request is a complete well-formed wire frame
(`*0\r\n` tokenizes fully and materializes to `Array []`), the
dispatcher's shape validation accepts it vacuously, and
`get_cmd_and_args` hits its panicking branch (`first().unwrap()` on an
empty sequence, modelled as `none`): extraction is not total on
shape-validated requests. -/
theorem c10_empty_array_not_total :
    tokenize [42, 48, 13, 10] 0 = Except.ok (some (RESPRaw.Array [], 4)) ∧
    fromToken (RESPRaw.Array []) [42, 48, 13, 10] = RedisValue.Array [] ∧
    requestShapeOk (RedisValue.Array []) = true ∧
    getCmdAndArgs (RedisValue.Array []) = none :=
  ⟨rfl, rfl, rfl, rfl⟩

/-- C9: abort paths of the RDB decoder.  Whenever the scan loop finishes
with `parsing_complete = false` the decoder discards the partial stores
and returns two empty ones; the loop reports `false` on a value-type byte
other than `0x00` (both in the plain branch and after an `0xFC` expiry);
and the well-formed empty snapshot `0xFB 0x00 0x00 0xFF` decodes to two
empty stores. -/
theorem c9_rdb_abort_empty :
    (∀ buf now m e, rdbScan buf now = some (false, m, e) → fromRdbfile buf now = some ([], [])) ∧
    (∀ fuel buf now pos m e b, buf.get? pos = some b → b ≠ 252 → b ≠ 254 → b ≠ 255 → b ≠ 0 →
      rdbLoop (fuel + 1) buf now pos m e = some (false, m, e)) ∧
    (∀ fuel buf now pos m e tb, buf.get? pos = some 252 → pos + 9 ≤ buf.length →
      buf.get? (pos + 9) = some tb → tb ≠ 0 →
      rdbLoop (fuel + 1) buf now pos m e = some (false, m, e)) ∧
    (∀ now, fromRdbfile [251, 0, 0, 255] now = some ([], [])) := by
  refine ⟨?_, ?_, ?_, ?_⟩
  · intro buf now m e h
    simp [fromRdbfile, h]
  · intro fuel buf now pos m e b hb h252 h254 h255 h0
    simp only [List.get?_eq_getElem?] at hb
    simp [rdbLoop, hb, h252, h254, h255, h0]
  · intro fuel buf now pos m e tb hb hlen htb h0
    simp only [List.get?_eq_getElem?] at hb htb
    simp [rdbLoop, hb, hlen, htb, h0]
  · intro now
    rfl

/-- C9: witness instantiating the abort paths: a scan ending on `0xFE`
(no `0xFF` seen), a plain value-type byte 5 and an `0xFC` entry with
value-type byte 7. -/
theorem c9_rdb_abort_empty_witness :
    rdbScan [251, 0, 0, 254] 77 = some (false, [], []) ∧
    fromRdbfile [251, 0, 0, 254] 77 = some ([], []) ∧
    rdbLoop 1 [5] 77 0 [] [] = some (false, [], []) ∧
    rdbLoop 1 [252, 1, 1, 1, 1, 1, 1, 1, 1, 7] 77 0 [] [] = some (false, [], []) :=
  ⟨rfl,
   c9_rdb_abort_empty.1 [251, 0, 0, 254] 77 [] [] rfl,
   c9_rdb_abort_empty.2.1 0 [5] 77 0 [] [] 5 rfl (by decide) (by decide) (by decide) (by decide),
   c9_rdb_abort_empty.2.2.1 0 [252, 1, 1, 1, 1, 1, 1, 1, 1, 7] 77 0 [] [] 7 rfl (by decide) rfl
     (by decide)⟩

/-- C6: counterexample to the claimed preamble bytes.  With replication
id `R` and a 1-byte RDB file, the wire bytes the master writes are
`++FULLRESYNC R 0\r\n\r\n$1\r\n<1>` — the SimpleString serializer adds
its own `+` and CRLF around a payload that already carries them — not the
claimed `+FULLRESYNC R 0\r\n$1\r\n<1>`. -/
theorem c6_psync_counterexample :
    psyncWire [82] [1] =
      some [43, 43, 70, 85, 76, 76, 82, 69, 83, 89, 78, 67, 32, 82, 32, 48, 13, 10, 13, 10,
        36, 49, 13, 10, 1] ∧
    ([43, 43, 70, 85, 76, 76, 82, 69, 83, 89, 78, 67, 32, 82, 32, 48, 13, 10, 13, 10,
        36, 49, 13, 10, 1] : List Nat) ≠
      [43, 70, 85, 76, 76, 82, 69, 83, 89, 78, 67, 32, 82, 32, 48, 13, 10, 36, 49, 13, 10, 1] :=
  ⟨rfl, by decide⟩

/-- C6: amended reply shape.  For every replication id whose FULLRESYNC
payload is valid UTF-8, the bytes written are two leading `+` signs, the
`FULLRESYNC <replid> 0` text, a doubled CRLF, then the raw
`$<len>\r\n<bytes>` RDB frame with no trailing CRLF. -/
theorem c6_psync_amended (replid rdb : List Nat)
    (h : validUtf8 (fullresyncPayload replid) = true) :
    psyncWire replid rdb =
      some (43 :: 43 :: ([70, 85, 76, 76, 82, 69, 83, 89, 78, 67, 32] ++ replid ++
        [32, 48, 13, 10, 13, 10, 36] ++ (natToDecimal rdb.length ++ [13, 10] ++ rdb))) := by
  have h' : validUtf8 (43 :: 70 :: 85 :: 76 :: 76 :: 82 :: 69 :: 83 :: 89 :: 78 :: 67 :: 32 ::
      (replid ++ [32, 48, 13, 10])) = true := by
    simpa [fullresyncPayload] using h
  simp [psyncWire, serialize, fullresyncPayload, h']

/-- C6: witness instantiating `c6_psync_amended` with replication id `R`
and the RDB payload `[1]`. -/
theorem c6_psync_amended_witness :
    validUtf8 (fullresyncPayload [82]) = true ∧
    psyncWire [82] [1] = some (43 :: 43 :: ([70, 85, 76, 76, 82, 69, 83, 89, 78, 67, 32] ++ [82] ++
      [32, 48, 13, 10, 13, 10, 36] ++ (natToDecimal 1 ++ [13, 10] ++ [1]))) :=
  ⟨by decide, c6_psync_amended [82] [1] (by decide)⟩

/-- Lookup of a freshly inserted key returns the inserted value. -/
theorem lookupA_insertA {β : Type} (l : List (RedisValue × β)) (k : RedisValue) (v : β) :
    lookupA (insertA l k v) k = some v := by
  induction l with
  | nil => simp [insertA, lookupA]
  | cons p t ih =>
    obtain ⟨k', v'⟩ := p
    by_cases h : k' = k
    · simp [insertA, lookupA, h]
    · simp [insertA, lookupA, h, ih]

/-- C3: counterexample at the boundary deadline.  With key `k` stored and
its expiry deadline equal to the clock (5 = now), the claim requires
removal from both maps and a NullBulkString reply, but the code's strict
comparison `timestamp < now()` keeps the entry and replies the stored
value. -/
theorem c3_get_counterexample :
    getCmd [RedisValue.BulkString [107]]
      [(RedisValue.BulkString [107], RedisValue.BulkString [118])]
      [(RedisValue.BulkString [107], 5)] 5 =
      some ([(RedisValue.BulkString [107], RedisValue.BulkString [118])],
        [(RedisValue.BulkString [107], 5)], RedisValue.BulkString [118]) ∧
    RedisValue.BulkString [118] ≠ RedisValue.NullBulkString :=
  ⟨rfl, by decide⟩

/-- C3: amended GET semantics.  For a present key: a deadline strictly
below `now` removes the key from both stores and replies NullBulkString,
while a deadline `≥ now` (or no expiry entry) replies the stored value;
an absent key replies NullBulkString.  `now < 2^64` reflects that `now`
is a `u64` clock sample. -/
theorem c3_get_amended (main : MainStore) (expire : ExpireStore) (k : RedisValue) (now : Nat)
    (hnow : now < 2 ^ 64) :
    (lookupA main k = none →
      getCmd [k] main expire now = some (main, expire, RedisValue.NullBulkString)) ∧
    (∀ v t, lookupA main k = some v → lookupA expire k = some t → t < now →
      getCmd [k] main expire now =
        some (removeA main k, removeA expire k, RedisValue.NullBulkString)) ∧
    (∀ v, lookupA main k = some v →
      (lookupA expire k = none ∨ ∃ t, lookupA expire k = some t ∧ now ≤ t) →
      getCmd [k] main expire now = some (main, expire, v)) := by
  refine ⟨?_, ?_, ?_⟩
  · intro h
    simp [getCmd, h]
  · intro v t hm he ht
    simp [getCmd, hm, he, ht]
  · intro v hm hd
    have h64 : (2 : Nat) ^ 64 = 18446744073709551616 := by norm_num
    rcases hd with hd | ⟨t, ht, hge⟩
    · simp [getCmd, hm, hd]
      intro hcontra
      omega
    · simp [getCmd, hm, ht, show ¬(t < now) by omega]

/-- C3: witness instantiating `c3_get_amended` on an expired entry
(deadline 3, clock 5). -/
theorem c3_get_amended_witness :
    (5 : Nat) < 2 ^ 64 ∧
    lookupA [(RedisValue.BulkString [107], RedisValue.BulkString [118])]
      (RedisValue.BulkString [107]) = some (RedisValue.BulkString [118]) ∧
    getCmd [RedisValue.BulkString [107]]
      [(RedisValue.BulkString [107], RedisValue.BulkString [118])]
      [(RedisValue.BulkString [107], 3)] 5 =
      some (removeA [(RedisValue.BulkString [107], RedisValue.BulkString [118])]
          (RedisValue.BulkString [107]),
        removeA [(RedisValue.BulkString [107], 3)] (RedisValue.BulkString [107]),
        RedisValue.NullBulkString) :=
  ⟨by decide, rfl,
   (c3_get_amended [(RedisValue.BulkString [107], RedisValue.BulkString [118])]
     [(RedisValue.BulkString [107], 3)] (RedisValue.BulkString [107]) 5 (by decide)).2.1
     (RedisValue.BulkString [118]) 3 rfl rfl (by decide)⟩

/-- C7: SET frame effect.  `SET k v` (no option) maps `k` to `v` in the
main store, leaves the expiry store untouched — in particular a
pre-existing TTL survives — and replies `+OK`; `SET k v PX ms` (any ASCII
spelling of PX, parsable `ms`, non-overflowing sum) additionally sets the
expiry entry of `k` to `now + ms`. -/
theorem c7_set_frame (k v : RedisValue) (main : MainStore) (expire : ExpireStore) (now : Nat) :
    (setCmd [k, v] main expire now =
      some (insertA main k v, expire, RedisValue.SimpleString okBytes)) ∧
    lookupA (insertA main k v) k = some v ∧
    (∀ px ms m, validUtf8 px = true → asciiUpper px = [80, 88] → validUtf8 ms = true →
      parseU64 ms = some m → now + m < 2 ^ 64 →
      setCmd [k, v, RedisValue.BulkString px, RedisValue.BulkString ms] main expire now =
        some (insertA main k v, insertA expire k (now + m), RedisValue.SimpleString okBytes)) := by
  refine ⟨rfl, lookupA_insertA main k v, ?_⟩
  intro px ms m hutf hup hms hparse hlt
  have hlt' : now + m < 18446744073709551616 := by
    have h64 : (2 : Nat) ^ 64 = 18446744073709551616 := by norm_num
    omega
  simp [setCmd, hutf, hup, hms, hparse, Nat.mod_eq_of_lt hlt']

/-- C7: witness instantiating `c7_set_frame`, the PX branch with the
lowercase option `px` and a 10 ms timeout at clock 9. -/
theorem c7_set_frame_witness :
    validUtf8 [112, 120] = true ∧ asciiUpper [112, 120] = [80, 88] ∧
    validUtf8 [49, 48] = true ∧ parseU64 [49, 48] = some 10 ∧ 9 + 10 < 2 ^ 64 ∧
    setCmd [RedisValue.BulkString [107], RedisValue.BulkString [118],
        RedisValue.BulkString [112, 120], RedisValue.BulkString [49, 48]] [] [] 9 =
      some (insertA [] (RedisValue.BulkString [107]) (RedisValue.BulkString [118]),
        insertA [] (RedisValue.BulkString [107]) (9 + 10), RedisValue.SimpleString okBytes) :=
  ⟨by decide, by decide, by decide, rfl, by decide,
   (c7_set_frame (RedisValue.BulkString [107]) (RedisValue.BulkString [118]) [] [] 9).2.2
     [112, 120] [49, 48] 10 (by decide) (by decide) (by decide) rfl (by decide)⟩

/-- C8: counterexample at the boundary deadline.  With a single key whose
deadline equals the clock (5 = now), the claim requires it to be skipped
(reply `Array []`), but the code's strict `k < now()` keeps it. -/
theorem c8_keys_counterexample :
    keysCmd [RedisValue.BulkString [120]]
      [(RedisValue.BulkString [107], RedisValue.BulkString [118])]
      [(RedisValue.BulkString [107], 5)] 5 =
      some (RedisValue.Array [RedisValue.BulkString [107]]) ∧
    RedisValue.Array [RedisValue.BulkString [107]] ≠ RedisValue.Array [] :=
  ⟨rfl, by decide⟩

/-- C8: amended KEYS semantics.  For any valid-UTF-8 pattern, the reply
is an Array holding exactly the main-store keys whose expiry deadline is
not strictly below `now` (deadline `< now` skipped, deadline `≥ now` or
no entry kept), independent of the pattern's content. -/
theorem c8_keys_amended (p : List Nat) (main : MainStore) (expire : ExpireStore) (now : Nat)
    (hp : validUtf8 p = true) :
    ∃ ks, keysCmd [RedisValue.BulkString p] main expire now = some (RedisValue.Array ks) ∧
      (∀ k, k ∈ ks ↔ k ∈ main.map Prod.fst ∧ ∀ t, lookupA expire k = some t → ¬ t < now) ∧
      (∀ q, validUtf8 q = true →
        keysCmd [RedisValue.BulkString q] main expire now =
          keysCmd [RedisValue.BulkString p] main expire now) := by
  refine ⟨(main.map Prod.fst).filter (fun k =>
      match lookupA expire k with
      | some t => !decide (t < now)
      | none => true), ?_, ?_, ?_⟩
  · simp [keysCmd, hp]
  · intro k
    rw [List.mem_filter]
    cases hlook : lookupA expire k with
    | none => simp [hlook]
    | some t => simp [hlook]
  · intro q hq
    simp [keysCmd, hp, hq]

/-- C8: witness instantiating `c8_keys_amended` on a one-key store with a
live deadline. -/
theorem c8_keys_amended_witness :
    validUtf8 [120] = true ∧
    (∃ ks, keysCmd [RedisValue.BulkString [120]]
        [(RedisValue.BulkString [107], RedisValue.BulkString [118])]
        [(RedisValue.BulkString [107], 9)] 5 = some (RedisValue.Array ks) ∧
      (∀ k, k ∈ ks ↔
        k ∈ ([(RedisValue.BulkString [107], RedisValue.BulkString [118])].map Prod.fst) ∧
        ∀ t, lookupA [(RedisValue.BulkString [107], 9)] k = some t → ¬ t < 5) ∧
      (∀ q, validUtf8 q = true →
        keysCmd [RedisValue.BulkString q]
            [(RedisValue.BulkString [107], RedisValue.BulkString [118])]
            [(RedisValue.BulkString [107], 9)] 5 =
          keysCmd [RedisValue.BulkString [120]]
            [(RedisValue.BulkString [107], RedisValue.BulkString [118])]
            [(RedisValue.BulkString [107], 9)] 5)) :=
  ⟨by decide,
   c8_keys_amended [120] [(RedisValue.BulkString [107], RedisValue.BulkString [118])]
     [(RedisValue.BulkString [107], 9)] 5 (by decide)⟩

/-- Digit extraction is independent of the fuel once the fuel covers the
argument. -/
theorem toDigitsRevF_fuel : ∀ f1 f2 n : Nat, n ≤ f1 → n ≤ f2 →
    toDigitsRevF f1 n = toDigitsRevF f2 n := by
  intro f1
  induction f1 with
  | zero =>
    intro f2 n h1 _
    interval_cases n
    cases f2 <;> rfl
  | succ f1 ih =>
    intro f2 n h1 h2
    cases n with
    | zero => cases f2 <;> rfl
    | succ m =>
      cases f2 with
      | zero => omega
      | succ f2' =>
        show ((m + 1) % 10 + 48) :: toDigitsRevF f1 ((m + 1) / 10) =
          ((m + 1) % 10 + 48) :: toDigitsRevF f2' ((m + 1) / 10)
        have hd : (m + 1) / 10 < m + 1 := Nat.div_lt_self (Nat.succ_pos m) (by omega)
        rw [ih f2' ((m + 1) / 10) (by omega) (by omega)]

/-- Unfolding equation of `toDigitsRev` on a positive argument. -/
theorem toDigitsRev_succ (n : Nat) (h : 0 < n) :
    toDigitsRev n = (n % 10 + 48) :: toDigitsRev (n / 10) := by
  cases n with
  | zero => omega
  | succ m =>
    show toDigitsRevF (m + 1) (m + 1) = ((m + 1) % 10 + 48) :: toDigitsRevF ((m + 1) / 10) ((m + 1) / 10)
    rw [show toDigitsRevF (m + 1) (m + 1) =
      ((m + 1) % 10 + 48) :: toDigitsRevF m ((m + 1) / 10) from rfl]
    have hd : (m + 1) / 10 < m + 1 := Nat.div_lt_self (Nat.succ_pos m) (by omega)
    rw [toDigitsRevF_fuel m ((m + 1) / 10) ((m + 1) / 10) (by omega) (le_refl _)]

/-- Every byte of `toDigitsRev` is an ASCII digit. -/
theorem toDigitsRev_digits (n : Nat) : ∀ c ∈ toDigitsRev n, 48 ≤ c ∧ c ≤ 57 := by
  induction n using Nat.strong_induction_on with
  | _ n ih =>
    cases n with
    | zero => simp [toDigitsRev, toDigitsRevF]
    | succ m =>
      rw [toDigitsRev_succ (m + 1) (Nat.succ_pos m)]
      intro c hc
      rw [List.mem_cons] at hc
      rcases hc with hc | hc
      · omega
      · exact ih ((m + 1) / 10) (Nat.div_lt_self (Nat.succ_pos m) (by omega)) c hc

/-- Every byte of `natToDecimal` is an ASCII digit. -/
theorem natToDecimal_digits (n : Nat) : ∀ c ∈ natToDecimal n, 48 ≤ c ∧ c ≤ 57 := by
  unfold natToDecimal
  by_cases h : n = 0
  · simp [h]
  · simp only [h, if_false]
    intro c hc
    exact toDigitsRev_digits n c (List.mem_reverse.mp hc)

/-- The decimal representation is never empty. -/
theorem natToDecimal_ne_nil (n : Nat) : natToDecimal n ≠ [] := by
  unfold natToDecimal
  by_cases h : n = 0
  · simp [h]
  · simp only [h, if_false]
    intro hc
    rw [List.reverse_eq_nil_iff] at hc
    cases n with
    | zero => omega
    | succ m => rw [toDigitsRev_succ (m + 1) (Nat.succ_pos m)] at hc; cases hc

/-- Scanning one extra digit multiplies the accumulated value by ten. -/
theorem parseDigitsGo_append (l : List Nat) (d acc : Nat) (hd : 48 ≤ d ∧ d ≤ 57) :
    parseDigitsGo (l ++ [d]) acc = (parseDigitsGo l acc).map (fun v => v * 10 + (d - 48)) := by
  induction l generalizing acc with
  | nil => simp [parseDigitsGo, digitVal, hd]
  | cons c t ih =>
    by_cases hc : 48 ≤ c ∧ c ≤ 57
    · simp only [List.cons_append, parseDigitsGo, digitVal, hc, if_pos]
      exact ih (acc * 10 + (c - 48))
    · simp [parseDigitsGo, digitVal, hc]

/-- Value of the reversed digit string of `n` under the accumulating
scan. -/
theorem parseDigitsGo_toDigitsRev (n : Nat) : ∀ acc : Nat,
    parseDigitsGo (toDigitsRev n).reverse acc =
      some (acc * 10 ^ (toDigitsRev n).length + n) := by
  induction n using Nat.strong_induction_on with
  | _ n ih =>
    intro acc
    cases n with
    | zero => simp [toDigitsRev, toDigitsRevF, parseDigitsGo]
    | succ m =>
      rw [toDigitsRev_succ (m + 1) (Nat.succ_pos m)]
      simp only [List.reverse_cons, List.length_cons]
      rw [parseDigitsGo_append _ _ _ (by constructor <;> omega)]
      rw [ih ((m + 1) / 10) (Nat.div_lt_self (Nat.succ_pos m) (by omega)) acc]
      simp only [Option.map]
      congr 1
      have hsub : (m + 1) % 10 + 48 - 48 = (m + 1) % 10 := by omega
      rw [hsub]
      calc (acc * 10 ^ (toDigitsRev ((m + 1) / 10)).length + (m + 1) / 10) * 10 + (m + 1) % 10
          = acc * (10 ^ (toDigitsRev ((m + 1) / 10)).length * 10) +
            (10 * ((m + 1) / 10) + (m + 1) % 10) := by ring
        _ = acc * 10 ^ ((toDigitsRev ((m + 1) / 10)).length + 1) + (m + 1) := by
            rw [Nat.div_add_mod, pow_succ]

/-- The decimal printer and the digit parser are inverse. -/
theorem parseDigits_natToDecimal (n : Nat) : parseDigits (natToDecimal n) = some n := by
  unfold natToDecimal
  by_cases h : n = 0
  · simp [h, parseDigits, parseDigitsGo, digitVal]
  · simp only [h, if_false]
    unfold parseDigits
    have hne : ((toDigitsRev n).reverse : List Nat) ≠ [] := by
      intro hc
      rw [List.reverse_eq_nil_iff] at hc
      cases n with
      | zero => omega
      | succ m => rw [toDigitsRev_succ (m + 1) (Nat.succ_pos m)] at hc; cases hc
    rw [if_neg (by simpa [List.isEmpty_iff] using hne)]
    rw [parseDigitsGo_toDigitsRev n 0]
    simp

/-- A decimal representation below `2^31` parses back through the `i32`
parser. -/
theorem parseI32_natToDecimal (n : Nat) (h : n < 2 ^ 31) :
    parseI32 (natToDecimal n) = some ((n : Int)) := by
  have hd := natToDecimal_digits n
  have hp := parseDigits_natToDecimal n
  cases hnd : natToDecimal n with
  | nil => exact absurd hnd (natToDecimal_ne_nil n)
  | cons c r =>
    have hc : 48 ≤ c ∧ c ≤ 57 := by
      rw [hnd] at hd
      exact hd c (by simp)
    rw [hnd] at hp
    simp only [parseI32]
    rw [if_neg (by omega), if_neg (by omega), hp]
    have h31 : n < 2147483648 := by norm_num at h; exact h
    simp [h31]

/-- Decimal representations contain no CRLF pair. -/
theorem natToDecimal_noAdjCRLF (n : Nat) : noAdjCRLF (natToDecimal n) = true :=
  digits_noAdjCRLF (natToDecimal n) (natToDecimal_digits n)

/-- One tokenizer step on a serialized simple string sitting after `pre`
and before `rest`. -/
theorem tokenizeF_simple (fuel : Nat) (pre s rest : List Nat) (hs : noAdjCRLF s = true) :
    tokenizeF (fuel + 1) (pre ++ (43 :: (s ++ [13, 10])) ++ rest) pre.length =
      Except.ok (some (RESPRaw.SimpleString (Tok.mk (pre.length + 1) (pre.length + 1 + s.length)),
        pre.length + (s.length + 3))) := by
  have hbuf : pre ++ (43 :: (s ++ [13, 10])) ++ rest = pre ++ 43 :: (s ++ 13 :: 10 :: rest) := by
    simp
  rw [hbuf]
  simp only [tokenizeF, get?_at_append pre 43 (s ++ 13 :: 10 :: rest)]
  norm_num [parse_basic_string]
  have hw := getNextWord_at (pre ++ [43]) s rest hs
  have hb2 : (pre ++ [43]) ++ s ++ 13 :: 10 :: rest = pre ++ 43 :: (s ++ 13 :: 10 :: rest) := by
    simp
  rw [hb2] at hw
  simp only [List.length_append, List.length_cons, List.length_nil] at hw
  rw [show pre.length + (0 + 1) = pre.length + 1 from by omega] at hw
  rw [hw]
  rw [show pre.length + (s.length + 3) = pre.length + 1 + s.length + 2 from by omega]

/-- One tokenizer step on a serialized null bulk string. -/
theorem tokenizeF_null (fuel : Nat) (pre rest : List Nat) :
    tokenizeF (fuel + 1) (pre ++ [36, 45, 49, 13, 10] ++ rest) pre.length =
      Except.ok (some (RESPRaw.NullBulkString (pre.length + 5), pre.length + 5)) := by
  have hw := getNextWord_at (pre ++ [36]) [45, 49] rest (by decide)
  have hsl := sliceTok_mid (pre ++ [36]) [45, 49] (13 :: 10 :: rest)
  simp only [List.append_assoc, List.cons_append, List.nil_append, List.length_append,
    List.length_cons, List.length_nil] at hw hsl ⊢
  norm_num at hw hsl ⊢
  simp only [tokenizeF, parse_bulk_string, get?_at_append pre 36 _]
  norm_num
  rw [show pre.length + 1 + 2 = pre.length + 3 from by omega] at hw hsl
  simp only [hw, hsl, show parseI32 [45, 49] = some (-1) from rfl]
  norm_num

/-- One tokenizer step on a serialized bulk string whose length fits in
`i32`. -/
theorem tokenizeF_bulk (fuel : Nat) (pre b rest : List Nat) (hb : b.length < 2 ^ 31) :
    tokenizeF (fuel + 1)
      (pre ++ (36 :: (natToDecimal b.length ++ [13, 10] ++ b ++ [13, 10])) ++ rest) pre.length =
      Except.ok (some (RESPRaw.BulkString
        (Tok.mk (pre.length + 1 + (natToDecimal b.length).length + 2)
          (pre.length + 1 + (natToDecimal b.length).length + 2 + b.length)),
        pre.length + 1 + (natToDecimal b.length).length + 2 + b.length + 2)) := by
  have hw := getNextWord_at (pre ++ [36]) (natToDecimal b.length) (b ++ 13 :: 10 :: rest)
    (natToDecimal_noAdjCRLF b.length)
  have hsl := sliceTok_mid (pre ++ [36]) (natToDecimal b.length)
    (13 :: 10 :: (b ++ 13 :: 10 :: rest))
  simp only [List.append_assoc, List.cons_append, List.nil_append, List.length_append,
    List.length_cons, List.length_nil] at hw hsl ⊢
  norm_num at hw hsl ⊢
  simp only [tokenizeF, parse_bulk_string, get?_at_append pre 36 _]
  norm_num
  simp only [hw, hsl, parseI32_natToDecimal b.length hb]
  rw [if_neg (by omega), if_pos (by omega)]
  simp [Int.toNat_natCast]

/-- Payload slice of a serialized simple string. -/
theorem sliceTok_simple_payload (pre s rest : List Nat) :
    sliceTok (pre ++ (43 :: (s ++ [13, 10])) ++ rest)
      (Tok.mk (pre.length + 1) (pre.length + 1 + s.length)) = s := by
  have h := sliceTok_mid (pre ++ [43]) s (13 :: 10 :: rest)
  simp only [List.append_assoc, List.cons_append, List.nil_append, List.length_append,
    List.length_cons, List.length_nil] at h ⊢
  norm_num at h ⊢
  convert h using 3

/-- Payload slice of a serialized bulk string. -/
theorem sliceTok_bulk_payload (pre b rest : List Nat) :
    sliceTok (pre ++ (36 :: (natToDecimal b.length ++ [13, 10] ++ b ++ [13, 10])) ++ rest)
      (Tok.mk (pre.length + 1 + (natToDecimal b.length).length + 2)
        (pre.length + 1 + (natToDecimal b.length).length + 2 + b.length)) = b := by
  have h := sliceTok_mid (pre ++ [36] ++ natToDecimal b.length ++ [13, 10]) b (13 :: 10 :: rest)
  simp only [List.append_assoc, List.cons_append, List.nil_append, List.length_append,
    List.length_cons, List.length_nil] at h ⊢
  norm_num at h ⊢
  convert h using 3 <;> omega

/-- Array-loop counterpart of the round-trip step: given the round-trip
property for every value at fuel `fuel`, the element scan consumes a
serialized child list exactly and materializes it back. -/
theorem elemsWith_roundtrip (fuel : Nat)
    (ih : ∀ (v : RedisValue) (s1 pre1 rest1 : List Nat), representable v = true →
      serialize v = some s1 → s1.length < fuel →
      ∃ tk, tokenizeF fuel (pre1 ++ s1 ++ rest1) pre1.length =
          Except.ok (some (tk, pre1.length + s1.length)) ∧
        fromToken tk (pre1 ++ s1 ++ rest1) = v) :
    ∀ (vs : List RedisValue) (ss pre rest : List Nat), representableList vs = true →
      serializeList vs = some ss → ss.length < fuel →
      ∃ tks, parseElemsWith (fun bb pp => tokenizeF fuel bb pp) vs.length
          (pre ++ ss ++ rest) pre.length = Except.ok (some (tks, pre.length + ss.length)) ∧
        fromTokenList tks (pre ++ ss ++ rest) = vs := by
  intro vs
  induction vs with
  | nil =>
    intro ss pre rest _ hs _
    have hss : ss = [] := by
      simp [serializeList] at hs
      exact hs
    subst hss
    refine ⟨[], ?_, rfl⟩
    simp [parseElemsWith]
  | cons v vs ihl =>
    intro ss pre rest hr hs hlen
    cases hv : serialize v with
    | none => simp [serializeList, hv] at hs
    | some s1 =>
      cases hvs : serializeList vs with
      | none => simp [serializeList, hv, hvs] at hs
      | some ss2 =>
        have hss : ss = s1 ++ ss2 := by
          simp [serializeList, hv, hvs] at hs
          exact hs.symm
        subst hss
        have hrep : representable v = true ∧ representableList vs = true := by
          simpa [representableList, Bool.and_eq_true] using hr
        have hlen1 : s1.length < fuel := by
          simp only [List.length_append] at hlen
          omega
        have hlen2 : ss2.length < fuel := by
          simp only [List.length_append] at hlen
          omega
        obtain ⟨tk, htk, hft⟩ := ih v s1 pre (ss2 ++ rest) hrep.1 hv hlen1
        obtain ⟨tks, htks, hfts⟩ := ihl ss2 (pre ++ s1) rest hrep.2 hvs hlen2
        refine ⟨tk :: tks, ?_, ?_⟩
        · show parseElemsWith (fun bb pp => tokenizeF fuel bb pp) (vs.length + 1)
            (pre ++ (s1 ++ ss2) ++ rest) pre.length = _
          simp only [parseElemsWith]
          simp only [List.append_assoc, List.length_append] at htk htks ⊢
          simp only [htk, htks]
          norm_num [Nat.add_assoc]
        · show fromTokenList (tk :: tks) (pre ++ (s1 ++ ss2) ++ rest) = v :: vs
          simp only [fromTokenList]
          simp only [List.append_assoc] at hft hfts ⊢
          rw [hft, hfts]

/-- Round-trip of the tokenizer over serialized representable values:
tokenizing at the start of the serialized bytes (embedded between any
`pre` and `rest`) yields a complete token ending exactly after them whose
materialization is the original value. -/
theorem tokenizeF_roundtrip : ∀ (fuel : Nat) (V : RedisValue) (s pre rest : List Nat),
    representable V = true → serialize V = some s → s.length < fuel →
    ∃ tk, tokenizeF fuel (pre ++ s ++ rest) pre.length =
        Except.ok (some (tk, pre.length + s.length)) ∧
      fromToken tk (pre ++ s ++ rest) = V := by
  intro fuel
  induction fuel with
  | zero =>
    intro V s pre rest _ _ h
    omega
  | succ fuel ih =>
    intro V s pre rest hr hs hlen
    cases V with
    | SimpleError e => simp [representable] at hr
    | NullBulkString =>
      have hss : s = [36, 45, 49, 13, 10] := by
        simp [serialize] at hs
        exact hs.symm
      subst hss
      exact ⟨RESPRaw.NullBulkString (pre.length + 5), tokenizeF_null fuel pre rest, rfl⟩
    | SimpleString str =>
      have hna : noAdjCRLF str = true := by simpa [representable] using hr
      cases hu : validUtf8 str with
      | false => simp [serialize, hu] at hs
      | true =>
        have hss : s = 43 :: (str ++ [13, 10]) := by
          simp [serialize, hu] at hs
          exact hs.symm
        subst hss
        refine ⟨RESPRaw.SimpleString (Tok.mk (pre.length + 1) (pre.length + 1 + str.length)),
          ?_, ?_⟩
        · have h := tokenizeF_simple fuel pre str rest hna
          rw [show pre.length + (43 :: (str ++ [13, 10])).length = pre.length + (str.length + 3)
            from by simp]
          exact h
        · simp only [fromToken]
          rw [sliceTok_simple_payload pre str rest]
    | BulkString b =>
      have hblen : b.length < 2 ^ 31 := by simpa [representable] using hr
      cases hu : validUtf8 b with
      | false => simp [serialize, hu] at hs
      | true =>
        have hss : s = 36 :: (natToDecimal b.length ++ 13 :: 10 :: (b ++ [13, 10])) := by
          simp [serialize, hu] at hs
          exact hs.symm
        subst hss
        refine ⟨RESPRaw.BulkString (Tok.mk (pre.length + 1 + (natToDecimal b.length).length + 2)
          (pre.length + 1 + (natToDecimal b.length).length + 2 + b.length)), ?_, ?_⟩
        · have h := tokenizeF_bulk fuel pre b rest hblen
          simp only [List.append_assoc, List.cons_append, List.nil_append, List.length_append,
            List.length_cons, List.length_nil] at h ⊢
          norm_num at h ⊢
          convert h using 4
          omega
        · have h := sliceTok_bulk_payload pre b rest
          simp only [fromToken]
          simp only [List.append_assoc, List.cons_append, List.nil_append] at h ⊢
          rw [h]
    | Array vs =>
      have hr' : vs.length < 2 ^ 31 ∧ representableList vs = true := by
        simpa [representable, Bool.and_eq_true] using hr
      cases hsl : serializeList vs with
      | none => simp [serialize, hsl] at hs
      | some body =>
        have hss : s = 42 :: (natToDecimal vs.length ++ 13 :: 10 :: body) := by
          simp [serialize, hsl] at hs
          exact hs.symm
        subst hss
        have hd1 : 1 ≤ (natToDecimal vs.length).length := by
          cases hnd : natToDecimal vs.length with
          | nil => exact absurd hnd (natToDecimal_ne_nil vs.length)
          | cons c r => simp
        have hbody : body.length < fuel := by
          simp only [List.length_cons, List.length_append] at hlen
          omega
        have hw := getNextWord_at (pre ++ [42]) (natToDecimal vs.length) (body ++ rest)
          (natToDecimal_noAdjCRLF vs.length)
        have hslice := sliceTok_mid (pre ++ [42]) (natToDecimal vs.length)
          (13 :: 10 :: (body ++ rest))
        obtain ⟨tks, htks, hfts⟩ := elemsWith_roundtrip fuel ih vs body
          (pre ++ [42] ++ natToDecimal vs.length ++ [13, 10]) rest hr'.2 hsl hbody
        refine ⟨RESPRaw.Array tks, ?_, ?_⟩
        · simp only [List.append_assoc, List.cons_append, List.nil_append, List.length_append,
            List.length_cons, List.length_nil] at hw hslice htks ⊢
          norm_num at hw hslice htks ⊢
          simp only [tokenizeF, get?_at_append pre 42 _]
          norm_num
          simp only [hw, hslice, parseI32_natToDecimal vs.length hr'.1]
          rw [if_pos (by omega)]
          simp only [Int.toNat_natCast]
          rw [show pre.length + ((natToDecimal vs.length).length + 2 + 1)
              = pre.length + 1 + (natToDecimal vs.length).length + 2 from by omega] at htks
          simp only [htks]
          rw [show pre.length + ((natToDecimal vs.length).length + (body.length + 1 + 1) + 1)
              = pre.length + 1 + (natToDecimal vs.length).length + 2 + body.length from by omega]
        · simp only [fromToken]
          simp only [List.append_assoc, List.cons_append, List.nil_append] at hfts ⊢
          rw [hfts]

/-- C1: round-trip of the RESP codec.  For every grammar-representable
value V (built only from SimpleString, BulkString, NullBulkString and
Array, CRLF-free simple-string payloads, lengths inside the grammar's
signed 32-bit length words) whose serialization succeeds, tokenizing the
serialized bytes from position 0 yields a complete token whose end
position is the full serialized length and whose materialization is V. -/
theorem c1_roundtrip (V : RedisValue) (s : List Nat)
    (hr : representable V = true) (hs : serialize V = some s) :
    ∃ tk, tokenize s 0 = Except.ok (some (tk, s.length)) ∧ fromToken tk s = V := by
  have h := tokenizeF_roundtrip (s.length + 1) V s [] [] hr hs (by omega)
  simpa [tokenize] using h

/-- C1: witness instantiating `c1_roundtrip` on the value
`Array [BulkString "hi", SimpleString "ok", NullBulkString]`, whose
serialization is `*3\r\n$2\r\nhi\r\n+ok\r\n$-1\r\n`. -/
theorem c1_roundtrip_witness :
    representable (RedisValue.Array [RedisValue.BulkString [104, 105],
      RedisValue.SimpleString [111, 107], RedisValue.NullBulkString]) = true ∧
    serialize (RedisValue.Array [RedisValue.BulkString [104, 105],
      RedisValue.SimpleString [111, 107], RedisValue.NullBulkString]) =
      some [42, 51, 13, 10, 36, 50, 13, 10, 104, 105, 13, 10, 43, 111, 107, 13, 10,
        36, 45, 49, 13, 10] ∧
    (∃ tk, tokenize [42, 51, 13, 10, 36, 50, 13, 10, 104, 105, 13, 10, 43, 111, 107, 13, 10,
        36, 45, 49, 13, 10] 0 =
      Except.ok (some (tk, ([42, 51, 13, 10, 36, 50, 13, 10, 104, 105, 13, 10, 43, 111, 107,
        13, 10, 36, 45, 49, 13, 10] : List Nat).length)) ∧
      fromToken tk [42, 51, 13, 10, 36, 50, 13, 10, 104, 105, 13, 10, 43, 111, 107, 13, 10,
        36, 45, 49, 13, 10] =
        RedisValue.Array [RedisValue.BulkString [104, 105],
          RedisValue.SimpleString [111, 107], RedisValue.NullBulkString]) :=
  ⟨by decide, rfl,
   c1_roundtrip (RedisValue.Array [RedisValue.BulkString [104, 105],
     RedisValue.SimpleString [111, 107], RedisValue.NullBulkString]) _ (by decide) rfl⟩
